import Mathlib

/-
  Verification development for the crashmeter pipeline (src/main.py).

  The pipeline is embedded shallowly over ℚ.  Missing values (pandas NaN)
  are modelled by `Option ℚ` (`none` = NaN), with the Python/pandas
  comparison convention that every comparison against NaN is false.
-/

set_option allowUnsafeReducibility true in
attribute [semireducible] Rat.add Rat.mul Rat.sub Rat.inv Rat.ofScientific

set_option maxRecDepth 4000000

namespace Crashmeter

/-- Python floating value: `none` models NaN. -/
abbrev PyFloat := Option ℚ

/-- Python strict comparison `a > b`; any comparison with NaN is `False`. -/
def pyGt : PyFloat → PyFloat → Bool
  | some x, some y => decide (y < x)
  | _, _ => false

/-- NaN-propagating addition. -/
def pyAdd : PyFloat → PyFloat → PyFloat
  | some x, some y => some (x + y)
  | _, _ => none

/-- NaN-propagating multiplication. -/
def pyMul : PyFloat → PyFloat → PyFloat
  | some x, some y => some (x * y)
  | _, _ => none

/-- Python `max(a, b)`: returns `b` exactly when `b > a`, so
`max(80.0, nan)` evaluates to `80.0` (the NaN comparison is false). -/
def pyMax (a b : PyFloat) : PyFloat := if pyGt b a then b else a

/-- pandas `Series.clip(0, 1)`: clamps numbers, leaves NaN as NaN. -/
def pyClip01 : PyFloat → PyFloat
  | some x => some (min 1 (max 0 x))
  | none => none

/-- One merged monthly row of the aligned dataframe
(`df.columns = ['Price', 'US10Y', 'CAPE']`, src/main.py line 136). -/
structure Row where
  price : ℚ
  us10y : ℚ
  cape  : ℚ
  deriving DecidableEq, Inhabited, Repr

/-- Earnings yield `df['EY'] = 1 / df['CAPE']` (line 159). -/
def EY (r : Row) : ℚ := 1 / r.cape

/-- Excess CAPE yield `df['ECY'] = df['EY'] - df['US10Y']` (line 160). -/
def ECY (r : Row) : ℚ := EY r - r.us10y

/-- The series `-df['ECY']` ranked on line 161; every entry is present. -/
def vSeries (df : List Row) : List PyFloat := df.map (fun r => some (-ECY r))

/-- `df['SMA10'] = df['Price'].rolling(10).mean()` (line 167): simple mean of
the ten prices ending at position `i`, NaN for the first nine positions. -/
def SMA10 (df : List Row) (i : ℕ) : PyFloat :=
  if i < 9 then none
  else some (((((df.drop (i - 9)).take 10).map Row.price).sum) / 10)

/-- `df['Extension'] = df['Price'] / df['SMA10'] - 1` (line 168); NaN where
`SMA10` is NaN. -/
def Extension (df : List Row) (i : ℕ) : PyFloat :=
  (SMA10 df i).map (fun m => (df.getD i default).price / m - 1)

/-- The extension column as a positional series (NaN at positions 0–8). -/
def xSeries (df : List Row) : List PyFloat :=
  (List.range df.length).map (Extension df)

/-- The non-NaN values among the first `i+1` entries of a series: the
observations an expanding window at position `i` ranks over. -/
def prefixVals (s : List PyFloat) (i : ℕ) : List ℚ :=
  (s.take (i + 1)).filterMap id

/-- Number of window observations strictly below `x`. -/
def countLT (l : List ℚ) (x : ℚ) : ℕ := l.countP (fun y => decide (y < x))

/-- Number of window observations at most `x`. -/
def countLE (l : List ℚ) (x : ℚ) : ℕ := l.countP (fun y => decide (y ≤ x))

/-- Number of window observations equal to `x`. -/
def countEQ (l : List ℚ) (x : ℚ) : ℕ := l.countP (fun y => decide (y = x))

/-- The 1-based sorted positions occupied by the tie group of `x`. -/
def tiedRanks (l : List ℚ) (x : ℚ) : List ℕ :=
  List.range' (countLT l x + 1) (countLE l x - countLT l x)

/-- pandas `rank(method='average')` of `x` within window `l`: the mean of the
1-based sorted positions of the tie group of `x`. -/
def avgRank (l : List ℚ) (x : ℚ) : ℚ :=
  (((tiedRanks l x).map (fun k : ℕ => (k : ℚ))).sum) / ((countLE l x : ℚ) - countLT l x)

/-- `Series.expanding(min_periods=minp).rank(pct=True)` at position `i`
(lines 161, 164, 169): NaN when the entry itself is NaN or fewer than `minp`
non-NaN observations exist up to `i`; otherwise the average rank of the entry
among those observations, divided by their number. -/
def expandingRankPct (minp : ℕ) (s : List PyFloat) (i : ℕ) : PyFloat :=
  match s[i]? with
  | some (some x) =>
      let l := prefixVals s i
      if l.length < minp then none else some (avgRank l x / l.length)
  | _ => none

/-- `df['Valuation_Risk']` (line 161). -/
def Valuation_Risk (df : List Row) (i : ℕ) : PyFloat :=
  expandingRankPct 120 (vSeries df) i

/-- `df['Extension_Risk']` (line 169). -/
def Extension_Risk (df : List Row) (i : ℕ) : PyFloat :=
  expandingRankPct 120 (xSeries df) i

/-- `df['Trend_Bull'] = (df['Price'] > df['SMA10'])` (line 172); a NaN
moving average compares as `False`. -/
def Trend_Bull (df : List Row) (i : ℕ) : Bool :=
  pyGt (some (df.getD i default).price) (SMA10 df i)

/-- `df['Base_Risk']` (lines 184–185): weighted blend clipped to `[0, 1]`. -/
def Base_Risk (df : List Row) (i : ℕ) : PyFloat :=
  pyClip01 (pyAdd (pyMul (Valuation_Risk df i) (some (3/5)))
                  (pyMul (Extension_Risk df i) (some (2/5))))

/-- `asilo_crashmeter_hardcore` applied per row (lines 187–203):
`raw_score` when the trend is bullish, else `max(80.0, raw_score + 10)`. -/
def CrashMeter (df : List Row) (i : ℕ) : PyFloat :=
  let raw := pyMul (Base_Risk df i) (some 100)
  if Trend_Bull df i then raw else pyMax (some 80) (pyAdd raw (some 10))

/-- A row survives `df.dropna(subset=['SMA10'])` (line 175) iff its 10-month
moving average is defined. -/
def retainedRow (df : List Row) (i : ℕ) : Bool := (SMA10 df i).isSome

/-- Positions of the rows kept by the dropna on line 175. -/
def cleanIdx (df : List Row) : List ℕ :=
  (List.range df.length).filter (retainedRow df)

/-- The `CrashMeter` column of the cleaned dataframe (line 203). -/
def crashSeries (df : List Row) : List PyFloat :=
  (cleanIdx df).map (CrashMeter df)

/-- `rolling(3, min_periods=1).mean()` at position `k` (line 204): mean of
the non-NaN values among the (up to three) trailing entries, NaN if none. -/
def rollingMean3 (s : List PyFloat) (k : ℕ) : PyFloat :=
  let w := ((s.take (k + 1)).drop (k - 2)).filterMap id
  if w.length = 0 then none else some (w.sum / w.length)

/-- `df['CrashMeter_Smooth']` of the cleaned dataframe at position `k`. -/
def CrashMeter_Smooth (df : List Row) (k : ℕ) : PyFloat :=
  rollingMean3 (crashSeries df) k

/-- The three reporting zones (lines 219–227 and the JSON fields
`zona`/`colore_hex`/`emoji` on lines 247–249, which test the same
conditions in the same order). -/
inductive Zona
  | rossa
  | gialla
  | verde
  deriving DecidableEq, Repr

/-- Zone classification of a smoothed score: `score > 80` red, else
`score > 50` yellow, else green (strict comparisons, NaN compares false). -/
def zona (s : PyFloat) : Zona :=
  if pyGt s (some 80) then .rossa
  else if pyGt s (some 50) then .gialla
  else .verde

/-- A monthly source series: month index paired with its value. -/
abbrev Series := List (ℕ × ℚ)

/-- The dates carried by a series. -/
def keysOf (s : Series) : List ℕ := s.map Prod.fst

/-- Value of a series at a date, if present. -/
def lookup (s : Series) (d : ℕ) : Option ℚ :=
  (s.find? (fun p => decide (p.1 = d))).map Prod.snd

/-- Insert a date into a sorted duplicate-free date list. -/
def insertDate (d : ℕ) : List ℕ → List ℕ
  | [] => [d]
  | x :: xs =>
      if d < x then d :: x :: xs
      else if d = x then x :: xs
      else x :: insertDate d xs

/-- Sorted duplicate-free union of a list of dates: the row index produced
by `pd.concat([...], axis=1)` (outer join on dates, line 135). -/
def unionDates (l : List ℕ) : List ℕ := l.foldr insertDate []

/-- All dates appearing in any of the three sources, sorted ascending. -/
def alignDates (a b c : Series) : List ℕ :=
  unionDates (keysOf a ++ keysOf b ++ keysOf c)

/-- The merged row at a date, if all three sources have a value there
(`.dropna()` keeps exactly those rows, line 135). -/
def alignEntry (a b c : Series) (d : ℕ) : Option (ℕ × ℚ × ℚ × ℚ) :=
  match lookup a d, lookup b d, lookup c d with
  | some x, some y, some z => some (d, x, y, z)
  | _, _, _ => none

/-- `pd.concat([price, rates, cape], axis=1).dropna()` (line 135). -/
def align (a b c : Series) : List (ℕ × ℚ × ℚ × ℚ) :=
  (alignDates a b c).filterMap (alignEntry a b c)

/-- The aligned dataframe as rows `(Price, US10Y, CAPE)` (line 136). -/
def alignedRows (a b c : Series) : List Row :=
  (align a b c).map (fun q => ⟨q.2.1, q.2.2.1, q.2.2.2⟩)

/-- The guarded run (lines 135–144 then 203): the insufficient-history check
`len(df) < 120` aborts before any indicator computation or export. -/
def runCrashmeter (a b c : Series) : Except String (List PyFloat) :=
  let df := alignedRows a b c
  if df.length < 120 then Except.error "insufficient history"
  else Except.ok (crashSeries df)

/-- Normalization of the fallback rate source (lines 100–122): the scale is
chosen from the last value of the downloaded series. -/
def normalizeTnx (tnx : List ℚ) : List ℚ :=
  match tnx.getLast? with
  | none => []
  | some v =>
      if 100 < v then tnx.map (fun q => q / 100)
      else if 1 < v then tnx.map (fun q => q / 100)
      else tnx

/-- A constant synthetic month: price 100, rate 1%, CAPE 20. -/
def r0 : Row := ⟨100, 1/100, 20⟩

/-- 129 identical aligned months. -/
def df0 : List Row := List.replicate 129 r0

/-- 120 identical aligned months. -/
def dfC : List Row := List.replicate 120 r0

/-- Gauss sum of a block of consecutive naturals, cast to ℚ. -/
lemma sum_range'_cast (n a : ℕ) :
    (((List.range' a n).map (fun k : ℕ => (k : ℚ))).sum) =
      (n : ℚ) * a + (n : ℚ) * ((n : ℚ) - 1) / 2 := by
  induction n generalizing a with
  | zero => simp
  | succ m ih =>
      rw [List.range'_succ]
      simp only [List.map_cons, List.sum_cons, ih]
      push_cast
      ring

/-- Splitting a weak-inequality count into the strict count plus the ties. -/
lemma countLE_split (l : List ℚ) (x : ℚ) :
    countLE l x = countLT l x + countEQ l x := by
  induction l with
  | nil => rfl
  | cons a t ih =>
      unfold countLE countLT countEQ at ih ⊢
      simp only [List.countP_cons]
      rcases lt_trichotomy a x with h | h | h
      · rw [if_pos (by simp [le_of_lt h]), if_pos (by simp [h]),
          if_neg (by simp [ne_of_lt h])]
        omega
      · rw [if_pos (by simp [le_of_eq h]), if_neg (by simp [h]),
          if_pos (by simp [h])]
        omega
      · rw [if_neg (by simp [not_le.mpr h]), if_neg (by simp [lt_asymm h]),
          if_neg (by simp [ne_of_gt h])]
        omega

/-- A window member has at least one tie (itself). -/
lemma countEQ_pos (l : List ℚ) (x : ℚ) (hx : x ∈ l) : 0 < countEQ l x := by
  unfold countEQ
  rw [List.countP_pos_iff]
  exact ⟨x, hx, by simp⟩

/-- The strict count never exceeds the weak count. -/
lemma countLT_le_countLE (l : List ℚ) (x : ℚ) : countLT l x ≤ countLE l x := by
  have := countLE_split l x
  omega

/-- Closed form of the average rank: the mean of the tie-group positions is
the midpoint `(countLT + countLE + 1) / 2`. -/
lemma avgRank_eq (l : List ℚ) (x : ℚ) (hx : x ∈ l) :
    avgRank l x = ((countLT l x : ℚ) + countLE l x + 1) / 2 := by
  have hsplit := countLE_split l x
  have hpos := countEQ_pos l x hx
  unfold avgRank tiedRanks
  rw [sum_range'_cast]
  have h1 : countLE l x - countLT l x = countEQ l x := by omega
  rw [h1, hsplit]
  have he : ((countEQ l x : ℚ)) ≠ 0 := by exact_mod_cast hpos.ne'
  push_cast
  field_simp
  ring

/-- The ranked entry belongs to its own expanding window. -/
lemma mem_prefixVals (s : List PyFloat) (i : ℕ) (x : ℚ)
    (hx : s[i]? = some (some x)) : x ∈ prefixVals s i := by
  unfold prefixVals
  rw [List.mem_filterMap]
  refine ⟨some x, ?_, rfl⟩
  have hi : (s.take (i + 1))[i]? = some (some x) := by
    rw [List.getElem?_take_of_succ]
    exact hx
  exact List.getElem?_mem hi

/-- Closed form of the expanding percentile at a defined entry with a full
window. -/
lemma expandingRankPct_closed (s : List PyFloat) (i : ℕ) (x : ℚ)
    (hx : s[i]? = some (some x)) (h120 : 120 ≤ (prefixVals s i).length) :
    expandingRankPct 120 s i =
      some (((countLT (prefixVals s i) x : ℚ) + countLE (prefixVals s i) x + 1)
        / (2 * (prefixVals s i).length)) := by
  simp only [expandingRankPct, hx]
  rw [if_neg (by omega)]
  rw [avgRank_eq _ _ (mem_prefixVals s i x hx)]
  rw [div_div]

/-- The expanding percentile of a NaN entry is NaN. -/
lemma expandingRankPct_nan (s : List PyFloat) (i : ℕ)
    (hx : s[i]? = some none) : expandingRankPct 120 s i = none := by
  simp [expandingRankPct, hx]

/-- The expanding percentile is NaN below the observation floor. -/
lemma expandingRankPct_short (s : List PyFloat) (i : ℕ) (x : ℚ)
    (hx : s[i]? = some (some x)) (hlen : (prefixVals s i).length < 120) :
    expandingRankPct 120 s i = none := by
  simp only [expandingRankPct, hx]
  rw [if_pos hlen]

/-- Pointwise description of the negated-yield-gap series. -/
lemma vSeries_getElem (df : List Row) (i : ℕ) (h : i < df.length) :
    (vSeries df)[i]? = some (some (-ECY (df.getD i default))) := by
  unfold vSeries
  rw [List.getElem?_map, List.getElem?_eq_getElem h]
  simp [List.getD_eq_getElem?_getD, List.getElem?_eq_getElem h]

/-- A filterMap over a list with no missing images keeps the length. -/
lemma length_filterMap_all_some {α β : Type} (f : α → Option β)
    (l : List α) (h : ∀ a ∈ l, (f a).isSome) :
    (l.filterMap f).length = l.length := by
  induction l with
  | nil => rfl
  | cons a t ih =>
      cases hfa : f a with
      | none =>
          exact absurd (h a (List.mem_cons_self a t)) (by simp [hfa])
      | some b =>
          rw [List.filterMap_cons_some hfa]
          simp only [List.length_cons]
          rw [ih (fun y hy => h y (List.mem_cons_of_mem a hy))]

/-- The negated-yield-gap series has no missing entries, so the expanding
window at position `i` holds all `i + 1` observations from month one. -/
lemma prefixVals_vSeries_length (df : List Row) (i : ℕ) (h : i < df.length) :
    (prefixVals (vSeries df) i).length = i + 1 := by
  unfold prefixVals vSeries
  rw [← List.map_take, List.filterMap_map]
  rw [length_filterMap_all_some _ _ (by intro a _; simp)]
  rw [List.length_take]
  omega

/-- The valuation percentile is NaN before position 119. -/
lemma valuationRisk_none_of_lt (df : List Row) (i : ℕ) (h : i < df.length)
    (h119 : i < 119) : Valuation_Risk df i = none := by
  unfold Valuation_Risk
  exact expandingRankPct_short _ _ _ (vSeries_getElem df i h)
    (by rw [prefixVals_vSeries_length df i h]; omega)

/-- Pointwise description of the extension series. -/
lemma xSeries_getElem (df : List Row) (i : ℕ) (h : i < df.length) :
    (xSeries df)[i]? = some (Extension df i) := by
  unfold xSeries
  rw [List.getElem?_map, List.getElem?_range h]
  rfl

/-- The extension is NaN on the first nine rows. -/
lemma extension_none (df : List Row) (i : ℕ) (h9 : i < 9) :
    Extension df i = none := by
  unfold Extension SMA10
  rw [if_pos h9]
  rfl

/-- The extension is defined from the tenth row on. -/
lemma extension_some (df : List Row) (i : ℕ) (h9 : 9 ≤ i) :
    Extension df i = some ((df.getD i default).price /
      ((((df.drop (i - 9)).take 10).map Row.price).sum / 10) - 1) := by
  unfold Extension SMA10
  rw [if_neg (by omega)]
  rfl

/-- The expanding window of the extension series ranges over the whole
positional prefix of the aligned history. -/
lemma prefixVals_xSeries_eq (df : List Row) (i : ℕ) (h : i < df.length) :
    prefixVals (xSeries df) i = (List.range (i + 1)).filterMap (Extension df) := by
  unfold prefixVals xSeries
  rw [← List.map_take, List.take_range]
  have hmin : min (i + 1) df.length = i + 1 := by omega
  rw [hmin, List.filterMap_map]
  simp

/-- The extension window at position `i ≥ 9` holds `i - 8` observations:
the NaN rows 0–8 are skipped, every later row participates. -/
lemma prefixVals_xSeries_length (df : List Row) (i : ℕ) (h : i < df.length)
    (h9 : 9 ≤ i) : (prefixVals (xSeries df) i).length = i - 8 := by
  rw [prefixVals_xSeries_eq df i h]
  have hsplit : List.range' 0 (i + 1) = List.range' 0 9 ++ List.range' 9 (i - 8) := by
    rw [List.range'_append_1 0 9 (i - 8)]
    congr 1
    omega
  rw [List.range_eq_range', hsplit, List.filterMap_append]
  have hnil : (List.range' 0 9).filterMap (Extension df) = [] := by
    rw [List.filterMap_eq_nil_iff]
    intro a ha
    rcases List.mem_range'.mp ha with ⟨j, hj, rfl⟩
    exact extension_none df _ (by omega)
  rw [hnil, List.nil_append]
  rw [length_filterMap_all_some]
  · exact List.length_range' _ _ _
  · intro a ha
    rcases List.mem_range'.mp ha with ⟨j, hj, rfl⟩
    rw [extension_some df _ (by omega)]
    rfl

/-- The extension percentile is NaN before position 128 (nine NaN rows plus
the 120-observation floor). -/
lemma extensionRisk_none_of_lt (df : List Row) (i : ℕ) (h : i < df.length)
    (h128 : i < 128) : Extension_Risk df i = none := by
  unfold Extension_Risk
  by_cases h9 : i < 9
  · exact expandingRankPct_nan _ _
      (by rw [xSeries_getElem df i h, extension_none df i h9])
  · push_neg at h9
    refine expandingRankPct_short _ _ ((df.getD i default).price /
        ((((df.drop (i - 9)).take 10).map Row.price).sum / 10) - 1) ?_ ?_
    · rw [xSeries_getElem df i h, extension_some df i h9]
    · rw [prefixVals_xSeries_length df i h h9]
      omega

/-- C1 (amended): the expanding percentile ranks use the pandas
average-rank convention over the non-NaN observations of the full prefix.
For the negated yield gap (no missing entries) the rank at position
`i ≥ 119` equals `(countLT + countLE + 1) / (2·(i+1))`, reducing to the
claimed `countLE / (i+1)` exactly when the current value is untied, and is
undefined for `i < 119`.  For the extension series the first nine entries
are missing, so the rank is undefined before position 128 and at
`i ≥ 128` ranks over the `i - 8` defined observations. -/
theorem percentile_rank_semantics (df : List Row) (i : ℕ) (h : i < df.length) :
    (i < 119 → Valuation_Risk df i = none) ∧
    (119 ≤ i → Valuation_Risk df i =
      some (((countLT (prefixVals (vSeries df) i) (-ECY (df.getD i default)) : ℚ) +
             (countLE (prefixVals (vSeries df) i) (-ECY (df.getD i default)) : ℚ) + 1) /
            (2 * ((i : ℚ) + 1)))) ∧
    (119 ≤ i → countEQ (prefixVals (vSeries df) i) (-ECY (df.getD i default)) = 1 →
      Valuation_Risk df i =
        some ((countLE (prefixVals (vSeries df) i) (-ECY (df.getD i default)) : ℚ) /
          ((i : ℚ) + 1))) ∧
    (i < 128 → Extension_Risk df i = none) ∧
    (128 ≤ i → (prefixVals (xSeries df) i).length = i - 8 ∧
      ∃ x : ℚ, Extension df i = some x ∧
        Extension_Risk df i =
          some (((countLT (prefixVals (xSeries df) i) x : ℚ) +
                 (countLE (prefixVals (xSeries df) i) x : ℚ) + 1) /
                (2 * ((i : ℚ) - 8)))) := by
  refine ⟨fun h119 => valuationRisk_none_of_lt df i h h119, ?_, ?_,
    fun h128 => extensionRisk_none_of_lt df i h h128, ?_⟩
  · intro h119
    unfold Valuation_Risk
    rw [expandingRankPct_closed _ _ _ (vSeries_getElem df i h)
      (by rw [prefixVals_vSeries_length df i h]; omega)]
    rw [prefixVals_vSeries_length df i h]
    congr 1
    push_cast
    ring
  · intro h119 hEQ
    unfold Valuation_Risk
    rw [expandingRankPct_closed _ _ _ (vSeries_getElem df i h)
      (by rw [prefixVals_vSeries_length df i h]; omega)]
    rw [prefixVals_vSeries_length df i h]
    congr 1
    have hsplit := countLE_split (prefixVals (vSeries df) i)
      (-ECY (df.getD i default))
    have hLE : countLE (prefixVals (vSeries df) i) (-ECY (df.getD i default)) =
        countLT (prefixVals (vSeries df) i) (-ECY (df.getD i default)) + 1 := by
      omega
    rw [hLE]
    have hne : ((i : ℚ) + 1) ≠ 0 := by positivity
    push_cast
    field_simp
    ring
  · intro h128
    have h9 : 9 ≤ i := by omega
    refine ⟨prefixVals_xSeries_length df i h h9, ?_⟩
    refine ⟨(df.getD i default).price /
        ((((df.drop (i - 9)).take 10).map Row.price).sum / 10) - 1,
      extension_some df i h9, ?_⟩
    unfold Extension_Risk
    rw [expandingRankPct_closed _ _ _
      (by rw [xSeries_getElem df i h, extension_some df i h9])
      (by rw [prefixVals_xSeries_length df i h h9]; omega)]
    rw [prefixVals_xSeries_length df i h h9]
    congr 2
    rw [Nat.cast_sub (by omega : 8 ≤ i)]
    norm_num

/-- Witness for `percentile_rank_semantics` on the constant 129-month
dataset at position 128, where both expanding ranks are defined. -/
theorem percentile_rank_semantics_witness :
    128 < df0.length ∧
    ((128 < 119 → Valuation_Risk df0 128 = none) ∧
     (119 ≤ 128 → Valuation_Risk df0 128 =
       some (((countLT (prefixVals (vSeries df0) 128) (-ECY (df0.getD 128 default)) : ℚ) +
              (countLE (prefixVals (vSeries df0) 128) (-ECY (df0.getD 128 default)) : ℚ) + 1) /
             (2 * ((128 : ℕ) + 1)))) ∧
     (119 ≤ 128 → countEQ (prefixVals (vSeries df0) 128) (-ECY (df0.getD 128 default)) = 1 →
       Valuation_Risk df0 128 =
         some ((countLE (prefixVals (vSeries df0) 128) (-ECY (df0.getD 128 default)) : ℚ) /
           (((128 : ℕ) : ℚ) + 1))) ∧
     ((128 : ℕ) < 128 → Extension_Risk df0 128 = none) ∧
     (128 ≤ 128 → (prefixVals (xSeries df0) 128).length = 128 - 8 ∧
       ∃ x : ℚ, Extension df0 128 = some x ∧
         Extension_Risk df0 128 =
           some (((countLT (prefixVals (xSeries df0) 128) x : ℚ) +
                  (countLE (prefixVals (xSeries df0) 128) x : ℚ) + 1) /
                 (2 * (((128 : ℕ) : ℚ) - 8))))) :=
  ⟨by decide, percentile_rank_semantics df0 128 (by decide)⟩

/-- C1 counterexample: in 120 identical aligned months the negated yield
gap at position 119 ties with the whole prefix, so the claimed inclusive
count is 120 and the claimed rank would be 120/120 = 1, but the program
produces the average rank 121/240; moreover the extension rank at
position 119 is still undefined rather than given by the claimed formula. -/
theorem percentile_rank_inclusive_count_refuted :
    countLE (prefixVals (vSeries dfC) 119) (-ECY (dfC.getD 119 default)) = 120 ∧
    Valuation_Risk dfC 119 = some (121/240) ∧
    ((121 : ℚ)/240 ≠ 120/(119 + 1)) ∧
    Extension_Risk df0 119 = none := by decide

/-- C3 (amended): the dropna on line 175 removes exactly the rows whose
10-month moving average is undefined (positions 0–8); rows at positions
9–118 stay in the derived dataset even though their expanding percentile
rank is still undefined, and the expanding window of every row ranges over
the full aligned history from month one. -/
theorem history_floor_exclusion (df : List Row) (i : ℕ) (h : i < df.length) :
    (retainedRow df i = true ↔ 9 ≤ i) ∧
    (9 ≤ i → i < 119 → retainedRow df i = true ∧ Valuation_Risk df i = none) ∧
    (prefixVals (vSeries df) i).length = i + 1 := by
  have hret : retainedRow df i = true ↔ 9 ≤ i := by
    unfold retainedRow SMA10
    by_cases h9 : i < 9
    · rw [if_pos h9]
      simp
      omega
    · rw [if_neg h9]
      simp
      omega
  refine ⟨hret, fun h9 h119 => ⟨hret.mpr h9, valuationRisk_none_of_lt df i h h119⟩,
    prefixVals_vSeries_length df i h⟩

/-- Witness for `history_floor_exclusion` at position 50 of the constant
120-month dataset. -/
theorem history_floor_exclusion_witness :
    50 < dfC.length ∧
    ((retainedRow dfC 50 = true ↔ 9 ≤ 50) ∧
     (9 ≤ 50 → 50 < 119 → retainedRow dfC 50 = true ∧ Valuation_Risk dfC 50 = none) ∧
     (prefixVals (vSeries dfC) 50).length = 50 + 1) :=
  ⟨by decide, history_floor_exclusion dfC 50 (by decide)⟩

/-- C3 counterexample: position 10 of a 120-month dataset has fewer than
120 months of trailing history, yet the row is retained in the usable
derived dataset (it even receives the bearish floor score 80). -/
theorem sub_floor_row_retained :
    retainedRow dfC 10 = true ∧ (10 : ℕ) < 119 ∧ Valuation_Risk dfC 10 = none ∧
    10 ∈ cleanIdx dfC ∧ CrashMeter dfC 10 = some 80 := by decide

/-- C5: for every derived row whose 10-month moving average is defined,
`trend_bull` is true iff price is strictly greater than the moving average;
in particular a row with price exactly equal to the moving average is
classified bearish. -/
theorem trend_bull_strict (df : List Row) (i : ℕ) (m : ℚ)
    (hm : SMA10 df i = some m) :
    (Trend_Bull df i = true ↔ m < (df.getD i default).price) ∧
    ((df.getD i default).price = m → Trend_Bull df i = false) := by
  unfold Trend_Bull
  rw [hm]
  constructor
  · simp [pyGt]
  · intro h
    rw [h]
    simp [pyGt]

/-- Witness for `trend_bull_strict` at a tie (price 100, moving average
100): the row is classified bearish. -/
theorem trend_bull_strict_witness :
    SMA10 (List.replicate 10 r0) 9 = some 100 ∧
    ((Trend_Bull (List.replicate 10 r0) 9 = true ↔
        (100 : ℚ) < ((List.replicate 10 r0).getD 9 default).price) ∧
     (((List.replicate 10 r0).getD 9 default).price = 100 →
        Trend_Bull (List.replicate 10 r0) 9 = false)) :=
  ⟨by decide, trend_bull_strict (List.replicate 10 r0) 9 100 (by decide)⟩

/-- C10: for a retained row whose base risk is NaN, a bearish trend flag
produces the defined score 80 (Python `max(80.0, nan + 10)` is `80.0`),
while a bullish flag produces a NaN score. -/
theorem nan_base_risk_score (df : List Row) (i : ℕ)
    (hb : Base_Risk df i = none) :
    (Trend_Bull df i = false → CrashMeter df i = some 80) ∧
    (Trend_Bull df i = true → CrashMeter df i = none) := by
  unfold CrashMeter
  rw [hb]
  constructor <;> intro ht <;> rw [ht] <;> simp [pyMul, pyAdd, pyMax, pyGt]

/-- Witness for `nan_base_risk_score`: in a 129-month constant dataset the
retained row at position 50 has NaN base risk (expanding ranks undefined),
a bearish trend, and crashmeter score exactly 80. -/
theorem nan_base_risk_score_witness :
    Base_Risk df0 50 = none ∧
    ((Trend_Bull df0 50 = false → CrashMeter df0 50 = some 80) ∧
     (Trend_Bull df0 50 = true → CrashMeter df0 50 = none)) :=
  ⟨by decide, nan_base_risk_score df0 50 (by decide)⟩

/-- C4: for every derived row with a defined base risk and a bearish trend
flag, the final score is at least 80, with equality exactly when the raw
score is at most 70. -/
theorem bearish_floor_invariant (df : List Row) (i : ℕ) (b : ℚ)
    (hb : Base_Risk df i = some b) (ht : Trend_Bull df i = false) :
    ∃ f, CrashMeter df i = some f ∧ 80 ≤ f ∧ (f = 80 ↔ b * 100 ≤ 70) := by
  unfold CrashMeter
  rw [hb, ht]
  simp only [Bool.false_eq_true, if_false, pyMul, pyAdd, pyMax, pyGt]
  by_cases h : (80 : ℚ) < b * 100 + 10
  · rw [if_pos (by simpa using h)]
    exact ⟨b * 100 + 10, rfl, by linarith,
      by constructor <;> intro h2 <;> linarith⟩
  · rw [if_neg (by simpa using h)]
    exact ⟨80, rfl, le_refl _, by constructor <;> intro h2 <;> [linarith; rfl]⟩

/-- Witness for `bearish_floor_invariant` on the constant 129-month dataset
at position 128 (base risk 13003/25800, bearish trend). -/
theorem bearish_floor_invariant_witness :
    Base_Risk df0 128 = some (13003/25800) ∧ Trend_Bull df0 128 = false ∧
    ∃ f, CrashMeter df0 128 = some f ∧ 80 ≤ f ∧
      (f = 80 ↔ (13003/25800 : ℚ) * 100 ≤ 70) :=
  ⟨by decide, by decide,
    bearish_floor_invariant df0 128 (13003/25800) (by decide) (by decide)⟩

/-- C2: for every derived row with defined percentile ranks the base risk
is the clamped weighted blend `clip(v·0.60 + e·0.40, 0, 1)`, and the final
score is the raw score when the trend is bullish and `max(80, raw + 10)`
when bearish; in particular a bearish row with raw score 85 scores 95. -/
theorem final_score_formula (df : List Row) (i : ℕ) (v e : ℚ)
    (hv : Valuation_Risk df i = some v) (he : Extension_Risk df i = some e) :
    Base_Risk df i = some (min 1 (max 0 (v * (3/5) + e * (2/5)))) ∧
    (Trend_Bull df i = true → CrashMeter df i =
      some (min 1 (max 0 (v * (3/5) + e * (2/5))) * 100)) ∧
    (Trend_Bull df i = false → CrashMeter df i =
      some (max 80 (min 1 (max 0 (v * (3/5) + e * (2/5))) * 100 + 10))) ∧
    (Trend_Bull df i = false →
      min 1 (max 0 (v * (3/5) + e * (2/5))) * 100 = 85 →
      CrashMeter df i = some 95) := by
  have hbase : Base_Risk df i = some (min 1 (max 0 (v * (3/5) + e * (2/5)))) := by
    unfold Base_Risk
    rw [hv, he]
    rfl
  refine ⟨hbase, ?_, ?_, ?_⟩
  · intro hT
    unfold CrashMeter
    rw [hbase, hT]
    simp [pyMul]
  · intro hT
    unfold CrashMeter
    rw [hbase, hT]
    simp only [Bool.false_eq_true, if_false, pyMul, pyAdd, pyMax, pyGt]
    set q := min 1 (max 0 (v * (3/5) + e * (2/5))) with hq
    rcases le_or_lt (q * 100 + 10) 80 with hc | hc
    · rw [if_neg (by simpa using not_lt.mpr hc), max_eq_left hc]
    · rw [if_pos (by simpa using hc), max_eq_right (le_of_lt hc)]
  · intro hT h85
    unfold CrashMeter
    rw [hbase, hT]
    simp only [Bool.false_eq_true, if_false, pyMul, pyAdd, pyMax, pyGt]
    rw [h85]
    rw [if_pos (by norm_num)]
    norm_num

/-- Witness for `final_score_formula` on the constant 129-month dataset at
position 128, where both ranks are defined and the trend is bearish. -/
theorem final_score_formula_witness :
    Valuation_Risk df0 128 = some (65/129) ∧
    Extension_Risk df0 128 = some (121/240) ∧
    (Base_Risk df0 128 =
        some (min 1 (max 0 ((65/129 : ℚ) * (3/5) + (121/240 : ℚ) * (2/5)))) ∧
     (Trend_Bull df0 128 = true → CrashMeter df0 128 =
        some (min 1 (max 0 ((65/129 : ℚ) * (3/5) + (121/240 : ℚ) * (2/5))) * 100)) ∧
     (Trend_Bull df0 128 = false → CrashMeter df0 128 =
        some (max 80
          (min 1 (max 0 ((65/129 : ℚ) * (3/5) + (121/240 : ℚ) * (2/5))) * 100 + 10))) ∧
     (Trend_Bull df0 128 = false →
        min 1 (max 0 ((65/129 : ℚ) * (3/5) + (121/240 : ℚ) * (2/5))) * 100 = 85 →
        CrashMeter df0 128 = some 95)) :=
  ⟨by decide, by decide,
    final_score_formula df0 128 (65/129) (121/240) (by decide) (by decide)⟩

/-- Membership in a sorted insert. -/
lemma mem_insertDate (d a : ℕ) (l : List ℕ) :
    a ∈ insertDate d l ↔ a = d ∨ a ∈ l := by
  induction l with
  | nil => simp [insertDate]
  | cons x xs ih =>
      unfold insertDate
      by_cases h1 : d < x
      · rw [if_pos h1]
        simp [List.mem_cons]
      · by_cases h2 : d = x
        · rw [if_neg h1, if_pos h2]
          subst h2
          simp [List.mem_cons]
        · rw [if_neg h1, if_neg h2]
          simp [List.mem_cons, ih]
          tauto

/-- Sorted insert preserves strict sortedness. -/
lemma pairwise_insertDate (d : ℕ) (l : List ℕ) (hl : l.Pairwise (· < ·)) :
    (insertDate d l).Pairwise (· < ·) := by
  induction l with
  | nil => simp [insertDate]
  | cons x xs ih =>
      unfold insertDate
      rcases Nat.lt_trichotomy d x with h1 | h1 | h1
      · rw [if_pos h1]
        refine List.Pairwise.cons ?_ hl
        intro b hb
        rcases List.mem_cons.mp hb with rfl | hb2
        · exact h1
        · exact lt_trans h1 (List.rel_of_pairwise_cons hl hb2)
      · rw [if_neg (by omega), if_pos h1]
        exact hl
      · rw [if_neg (by omega), if_neg (by omega)]
        rw [List.pairwise_cons] at hl
        refine List.Pairwise.cons ?_ (ih hl.2)
        intro b hb
        rcases (mem_insertDate d b xs).mp hb with rfl | hb2
        · exact h1
        · exact hl.1 b hb2

/-- The sorted union carries exactly the input dates. -/
lemma mem_unionDates (l : List ℕ) (a : ℕ) : a ∈ unionDates l ↔ a ∈ l := by
  induction l with
  | nil => simp [unionDates]
  | cons x xs ih =>
      unfold unionDates at ih ⊢
      simp only [List.foldr_cons]
      rw [mem_insertDate]
      simp [ih, List.mem_cons]

/-- The sorted union is strictly ascending. -/
lemma pairwise_unionDates (l : List ℕ) : (unionDates l).Pairwise (· < ·) := by
  induction l with
  | nil => simp [unionDates]
  | cons x xs ih =>
      unfold unionDates at ih ⊢
      simp only [List.foldr_cons]
      exact pairwise_insertDate x _ ih

/-- A date can be looked up exactly when the series carries it. -/
lemma lookup_isSome_iff (s : Series) (d : ℕ) :
    (lookup s d).isSome = true ↔ d ∈ keysOf s := by
  unfold lookup keysOf
  simp [List.find?_isSome, List.mem_map]

/-- Inversion of a merged entry: its date is the joined date and its three
values are the sources' values at that exact date. -/
lemma alignEntry_some (a b c : Series) (d : ℕ) (t : ℕ × ℚ × ℚ × ℚ)
    (ht : alignEntry a b c d = some t) :
    t.1 = d ∧ lookup a d = some t.2.1 ∧ lookup b d = some t.2.2.1 ∧
      lookup c d = some t.2.2.2 := by
  unfold alignEntry at ht
  cases ha : lookup a d with
  | none => rw [ha] at ht; exact Option.noConfusion ht
  | some x =>
    cases hb : lookup b d with
    | none => rw [ha, hb] at ht; exact Option.noConfusion ht
    | some y =>
      cases hc : lookup c d with
      | none => rw [ha, hb, hc] at ht; exact Option.noConfusion ht
      | some z =>
        rw [ha, hb, hc] at ht
        have ht2 : some (d, x, y, z) = some t := ht
        cases ht2
        exact ⟨rfl, by simp [ha], by simp [hb], by simp [hc]⟩

/-- A merged entry exists at a date exactly when all three sources carry
the date. -/
lemma alignEntry_isSome_iff (a b c : Series) (d : ℕ) :
    (alignEntry a b c d).isSome = true ↔
      (d ∈ keysOf a ∧ d ∈ keysOf b ∧ d ∈ keysOf c) := by
  unfold alignEntry
  cases ha : lookup a d <;> cases hb : lookup b d <;> cases hc : lookup c d <;>
    simp [← lookup_isSome_iff, ha, hb, hc]

/-- The dates of the merged rows are the joined dates that survive the
dropna. -/
lemma align_map_fst (a b c : Series) (l : List ℕ) :
    (l.filterMap (alignEntry a b c)).map Prod.fst =
      l.filter (fun d => (alignEntry a b c d).isSome) := by
  induction l with
  | nil => rfl
  | cons d t ih =>
      cases hd : alignEntry a b c d with
      | none =>
          rw [List.filterMap_cons_none hd,
            List.filter_cons_of_neg (by simp [hd])]
          exact ih
      | some u =>
          rw [List.filterMap_cons_some hd, List.map_cons,
            List.filter_cons_of_pos (by simp [hd])]
          rw [ih]
          congr 1
          exact (alignEntry_some a b c d u hd).1

/-- C7: the aligned output is keyed by exactly the dates present in all
three input series, sorted strictly ascending, and each output value is
the source value looked up at that same date (no interpolation or
filling). -/
theorem aligner_intersection (a b c : Series) :
    (∀ d : ℕ, d ∈ (align a b c).map Prod.fst ↔
      (d ∈ keysOf a ∧ d ∈ keysOf b ∧ d ∈ keysOf c)) ∧
    ((align a b c).map Prod.fst).Pairwise (· < ·) ∧
    (∀ d x y z, (d, x, y, z) ∈ align a b c →
      lookup a d = some x ∧ lookup b d = some y ∧ lookup c d = some z) := by
  refine ⟨?_, ?_, ?_⟩
  · intro d
    unfold align
    rw [align_map_fst, List.mem_filter]
    constructor
    · rintro ⟨_, hsome⟩
      exact (alignEntry_isSome_iff a b c d).mp hsome
    · intro hmem
      refine ⟨?_, (alignEntry_isSome_iff a b c d).mpr hmem⟩
      unfold alignDates
      rw [mem_unionDates]
      simp [keysOf] at hmem ⊢
      tauto
  · unfold align
    rw [align_map_fst]
    exact (pairwise_unionDates _).filter _
  · intro d x y z hmem
    unfold align at hmem
    rw [List.mem_filterMap] at hmem
    obtain ⟨e, _, he⟩ := hmem
    obtain ⟨h1, h2, h3, h4⟩ := alignEntry_some a b c e (d, x, y, z) he
    cases h1
    exact ⟨h2, h3, h4⟩

/-- C6: the zone classification maps a smoothed score above 80 to the red
(extreme-risk) zone, a score in (50, 80] to the yellow (caution) zone and a
score at most 50 to the green (normal) zone; both boundary values fall in
the lower zone. -/
theorem zone_thresholds :
    (∀ q : ℚ,
      (zona (some q) = Zona.rossa ↔ 80 < q) ∧
      (zona (some q) = Zona.gialla ↔ 50 < q ∧ q ≤ 80) ∧
      (zona (some q) = Zona.verde ↔ q ≤ 50)) ∧
    zona (some 80) = Zona.gialla ∧ zona (some 50) = Zona.verde := by
  refine ⟨fun q => ?_, by decide, by decide⟩
  unfold zona
  simp only [pyGt]
  split_ifs with h1 h2
  · simp only [decide_eq_true_eq] at h1
    refine ⟨by simp [h1], ?_, ?_⟩
    · simp only [reduceCtorEq, false_iff, not_and]
      intro h3 h4
      linarith
    · simp only [reduceCtorEq, false_iff, not_le]
      linarith
  · simp only [decide_eq_true_eq] at h1 h2
    refine ⟨by simp [h1], ?_, ?_⟩
    · simp only [true_iff]
      exact ⟨h2, by linarith [not_lt.mp h1]⟩
    · simp only [reduceCtorEq, false_iff, not_le]
      linarith
  · simp only [decide_eq_true_eq] at h1 h2
    refine ⟨by simp [h1], ?_, ?_⟩
    · simp only [reduceCtorEq, false_iff, not_and]
      intro h3
      exact absurd h3 h2
    · simp only [true_iff]
      linarith [not_lt.mp h2]

/-- C8: the run fails with the insufficient-history error exactly when the
aligned dataset has fewer than 120 rows, and otherwise proceeds to the
score computation with no error artifact. -/
theorem insufficient_history_gate (a b c : Series) :
    ((alignedRows a b c).length < 120 →
        runCrashmeter a b c = Except.error "insufficient history") ∧
    (120 ≤ (alignedRows a b c).length →
        runCrashmeter a b c = Except.ok (crashSeries (alignedRows a b c))) ∧
    ((∃ e, runCrashmeter a b c = Except.error e) ↔
        (alignedRows a b c).length < 120) := by
  by_cases h : (alignedRows a b c).length < 120
  · refine ⟨fun _ => by simp [runCrashmeter, h], fun h2 => by omega, ?_⟩
    simp [runCrashmeter, h]
  · refine ⟨fun h2 => by omega, fun _ => by simp [runCrashmeter, h], ?_⟩
    simp [runCrashmeter, h]

/-- C9: evaluation of the fallback rate normalization on the three source
scales of the claim, each representing 4.18 percent.  A last value of 418
(the basis-points reading) is divided by 100 only, yielding 209/50 = 4.18
rather than the decimal fraction 0.0418 = 418/10000 the core expects; the
percent reading 4.18 and the decimal reading 0.0418 both normalize to
0.0418. -/
theorem tnx_normalization_eval :
    normalizeTnx [418] = [209/50] ∧ ((209 : ℚ)/50 ≠ 418/10000) ∧
    normalizeTnx [209/50] = [209/5000] ∧ ((209 : ℚ)/5000 = 418/10000) ∧
    normalizeTnx [209/5000] = [209/5000] := by decide

end Crashmeter
